import Mathlib

/-!
Verification development for the binary waveform / PDW codec of
`pyarbtools/instruments.py` (Keysight signal-generator control library).

The Python source is shallowly embedded:
* Python `int` arithmetic is `Int`/`Nat` (Python ints are unbounded);
* Python `float` inputs are modelled as `ℚ` with exact (real-valued)
  arithmetic; `int(x)` (truncation toward zero) is `pyInt`,
  `np.uint32(x)` is truncation toward zero followed by reduction mod 2^32;
* `n.to_bytes(len, byteorder="little")` is `toBytesLE`;
* an element assignment into a `np.uint32` array wraps modulo 2^32
  (numpy of the library's era performs a C-style cast for Python ints);
* a Python function that can raise is embedded with `Except String`;
* the `while` loop of `wraparound_calc` is embedded as a fuel-indexed
  loop `wrapLoop`; `wraparound_calc` supplies a fuel that is proved
  sufficient whenever the Python loop terminates (`length > 0`,
  `gran > 0`), so `none` marks exactly the diverging executions.
-/

/-! ## Generic byte-level helpers -/

/-- Python `n.to_bytes(len, byteorder="little")`: little-endian byte list of
a nonnegative integer (the source only applies it to in-range values). -/
def toBytesLE (len n : ℕ) : List ℕ :=
  (List.range len).map (fun k => n / 256 ^ k % 256)

/-- Four-byte little-endian encoding (`(x).to_bytes(4, byteorder="little")`). -/
def u32le (n : ℕ) : List ℕ := toBytesLE 4 n

/-- Eight-byte little-endian encoding (`(x).to_bytes(8, byteorder="little")`). -/
def u64le (n : ℕ) : List ℕ := toBytesLE 8 n

/-- Bytes of an ASCII string literal (Python `bytes` / UTF-8 of ASCII text). -/
def strBytes (s : String) : List ℕ := s.toList.map Char.toNat

theorem toBytesLE_length (len n : ℕ) : (toBytesLE len n).length = len := by
  simp [toBytesLE]

/-- Python `int(x)` for a real value: truncation toward zero. -/
def pyInt (x : ℚ) : ℤ := if 0 ≤ x then ⌊x⌋ else ⌈x⌉

/-- Low 32 bits of an integer in two's complement: the value stored by a
`np.uint32` cast / `& 0xFFFFFFFF` mask of a Python int. -/
def low32 (x : ℤ) : ℕ := (x % 4294967296).toNat

/-- Value stored by `np.uint32(x)` for a real `x`: C-style truncation toward
zero, then reduction modulo 2^32. -/
def pyUint32 (x : ℚ) : ℕ := low32 (pyInt x)

/-- One 32-bit word of a `np.uint32` PDW array, assembled by Python `|` from
the given operands.  Bitwise `|`, `&` and `<<` act pointwise on two's
complement bits, so taking the low 32 bits of each operand first and OR-ing
with `Nat.lor` equals the low 32 bits of the Python expression; this models
both an explicit `& 0xFFFFFFFF` mask and the wrap of a `np.uint32` array
assignment. -/
def word32 (parts : List ℤ) : ℕ := parts.foldl (fun acc p => acc ||| low32 p) 0

/-- Python `x << n` on an int. -/
def pyShl (x : ℤ) (n : ℕ) : ℤ := x * 2 ^ n

/-- Python `x >> n` on an int (arithmetic shift = floor division). -/
def pyShr (x : ℤ) (n : ℕ) : ℤ := Int.fdiv x (2 ^ n)

/-! ## `wraparound_calc` (instruments.py lines 29-48)

```python
repeats = 1
temp = length
while temp % gran != 0 or temp < minLen:
    temp += length
    repeats += 1
return repeats
```
-/

/-- One fuel-indexed unfolding of the `while` loop of `wraparound_calc`:
`none` means the loop did not finish within `fuel` iterations. -/
def wrapLoop (gran minLen length : ℕ) : ℕ → ℕ → ℕ → Option ℕ
  | 0, _, _ => none
  | fuel + 1, temp, repeats =>
    if temp % gran ≠ 0 ∨ temp < minLen then
      wrapLoop gran minLen length fuel (temp + length) (repeats + 1)
    else
      some repeats

/-- The repeat count `r` demanded of `wraparound_calc`: `r * length` is a
multiple of `gran` and at least `minLen`. -/
def SatRepeat (length gran minLen r : ℕ) : Prop :=
  r * length % gran = 0 ∧ minLen ≤ r * length

instance (length gran minLen r : ℕ) : Decidable (SatRepeat length gran minLen r) := by
  unfold SatRepeat; infer_instance

/-- `wraparound_calc(length, gran, minLen)`: the source loop, run with a fuel
that is proved sufficient whenever `length > 0` and `gran > 0` (the Python
loop diverges or raises `ZeroDivisionError` otherwise, and the model then
returns `none`). -/
def wraparound_calc (length gran minLen : ℕ) : Option ℕ :=
  wrapLoop gran minLen length (gran * (minLen + 1) + 1) length 1

theorem wrapLoop_finds_least (length gran minLen : ℕ)
    (hex : ∃ r, 1 ≤ r ∧ SatRepeat length gran minLen r) :
    ∀ fuel reps, 1 ≤ reps → reps ≤ Nat.find hex →
      Nat.find hex - reps < fuel →
      wrapLoop gran minLen length fuel (reps * length) reps = some (Nat.find hex) := by
  intro fuel
  induction fuel with
  | zero => intro reps _ _ h; omega
  | succ n ih =>
    intro reps h1 hle hfuel
    rcases eq_or_lt_of_le hle with heq | hlt
    · have hsat : SatRepeat length gran minLen reps := by
        have := (Nat.find_spec hex).2
        rw [heq]; exact this
      unfold wrapLoop
      rw [if_neg]
      · rw [heq]
      · rcases hsat with ⟨hmod, hmin⟩
        push_neg
        exact ⟨hmod, hmin⟩
    · have hnsat : ¬ SatRepeat length gran minLen reps := by
        intro hsat
        have := Nat.find_min hex hlt
        exact this ⟨h1, hsat⟩
      unfold wrapLoop
      rw [if_pos]
      · have : reps * length + length = (reps + 1) * length := by ring
        rw [this]
        exact ih (reps + 1) (by omega) (by omega) (by omega)
      · by_contra hcon
        push_neg at hcon
        exact hnsat ⟨hcon.1, hcon.2⟩

theorem satRepeat_at_bound (length gran minLen : ℕ) (hl : 0 < length) (hg : 0 < gran) :
    1 ≤ gran * (minLen + 1) ∧ SatRepeat length gran minLen (gran * (minLen + 1)) := by
  refine ⟨Nat.mul_pos hg (Nat.succ_pos minLen), ?_, ?_⟩
  · have h : gran * (minLen + 1) * length = gran * ((minLen + 1) * length) := by ring
    rw [h]
    exact Nat.mul_mod_right _ _
  · calc minLen ≤ minLen + 1 := by omega
      _ ≤ (minLen + 1) * (gran * length) := Nat.le_mul_of_pos_right _ (by positivity)
      _ = gran * (minLen + 1) * length := by ring

theorem satRepeat_exists (length gran minLen : ℕ) (hl : 0 < length) (hg : 0 < gran) :
    ∃ r, 1 ≤ r ∧ SatRepeat length gran minLen r :=
  ⟨gran * (minLen + 1), satRepeat_at_bound length gran minLen hl hg⟩

theorem wraparound_calc_eq_find (length gran minLen : ℕ)
    (hl : 0 < length) (hg : 0 < gran) :
    wraparound_calc length gran minLen =
      some (Nat.find (satRepeat_exists length gran minLen hl hg)) := by
  have hex := satRepeat_exists length gran minLen hl hg
  have hbound : Nat.find hex ≤ gran * (minLen + 1) :=
    Nat.find_min' hex (satRepeat_at_bound length gran minLen hl hg)
  have h1 : 1 ≤ Nat.find hex := (Nat.find_spec hex).1
  have h := wrapLoop_finds_least length gran minLen hex
      (gran * (minLen + 1) + 1) 1 le_rfl h1 (by omega)
  unfold wraparound_calc
  rw [one_mul] at h
  rw [h]

/-- C1: for `length > 0` and `gran > 0` (a zero granularity makes `temp % gran`
raise `ZeroDivisionError` in Python and no repeat count exists), `wraparound_calc`
returns the minimal positive `r` with `(r*length) % gran == 0` and
`r*length >= minLen`, and in particular returns `1` when `length` itself
already satisfies both conditions. -/
theorem wraparound_calc_minimal (length gran minLen : ℕ)
    (hl : 0 < length) (hg : 0 < gran) :
    ∃ r, wraparound_calc length gran minLen = some r ∧ 1 ≤ r ∧
      r * length % gran = 0 ∧ minLen ≤ r * length ∧
      (∀ k, 1 ≤ k → k * length % gran = 0 → minLen ≤ k * length → r ≤ k) ∧
      (length % gran = 0 ∧ minLen ≤ length → r = 1) := by
  have hex := satRepeat_exists length gran minLen hl hg
  refine ⟨Nat.find hex, wraparound_calc_eq_find length gran minLen hl hg, ?_⟩
  have hspec := Nat.find_spec hex
  refine ⟨hspec.1, hspec.2.1, hspec.2.2, ?_, ?_⟩
  · intro k hk1 hmod hmin
    exact Nat.find_min' hex ⟨hk1, hmod, hmin⟩
  · intro hsat1
    have h1 : 1 ≤ Nat.find hex := hspec.1
    have hle : Nat.find hex ≤ 1 := by
      apply Nat.find_min' hex
      refine ⟨le_rfl, ?_, ?_⟩
      · rw [one_mul]; exact hsat1.1
      · rw [one_mul]; exact hsat1.2
    omega

/-- Witness for C1: `wraparound_calc(100, 64, 320)` (the spec's concrete
scenario) returns the minimal repeat count, which evaluates to 16. -/
theorem wraparound_calc_minimal_witness :
    (0 < 100 ∧ 0 < 64 ∧
      ∃ r, wraparound_calc 100 64 320 = some r ∧ 1 ≤ r ∧
        r * 100 % 64 = 0 ∧ 320 ≤ r * 100 ∧
        (∀ k, 1 ≤ k → k * 100 % 64 = 0 → 320 ≤ k * 100 → r ≤ k) ∧
        (100 % 64 = 0 ∧ 320 ≤ 100 → r = 1)) ∧
    wraparound_calc 100 64 320 = some 16 :=
  ⟨⟨by decide, by decide, wraparound_calc_minimal 100 64 320 (by decide) (by decide)⟩,
    by decide⟩

/-- C6: `wraparound_calc` has no `length == 0` guard at all.  Called with
`length == 0` and `minLen > 0` its `while` loop never changes `temp` (which
stays `0`, a multiple of any granularity but below `minLen`), so the function
loops forever: the loop exits within no fuel bound, and in particular the
modelled call returns `none` instead of any `InvalidLength` error. -/
theorem wraparound_calc_zero_length_diverges (gran minLen : ℕ) (hmin : 0 < minLen) :
    (∀ fuel reps, wrapLoop gran minLen 0 fuel 0 reps = none) ∧
    wraparound_calc 0 gran minLen = none := by
  have hloop : ∀ fuel reps, wrapLoop gran minLen 0 fuel 0 reps = none := by
    intro fuel
    induction fuel with
    | zero => intro reps; rfl
    | succ n ih =>
      intro reps
      unfold wrapLoop
      rw [if_pos (Or.inr hmin)]
      exact ih (reps + 1)
  exact ⟨hloop, hloop _ 1⟩

/-- Witness for C6: at `length=0, gran=64, minLen=320` (a device-realistic
profile) the loop diverges for every fuel, so the call never returns. -/
theorem wraparound_calc_zero_length_diverges_witness :
    0 < 320 ∧ wraparound_calc 0 64 320 = none :=
  ⟨by decide, (wraparound_calc_zero_length_diverges 64 320 (by decide)).2⟩

/-! ## `check_wfm` repeat-and-revalidate (M8190A lines 472-482, VectorUXG lines 2883-2890)

```python
repeats = wraparound_calc(len(wfm), self.gran, self.minLen)
wfm = np.tile(wfm, repeats)
rl = len(wfm)
if rl < self.minLen:
    raise error.AWGError(...)          # VectorUXG: error.VSGError(...)
rem = rl % self.gran
if rem != 0:
    raise error.GranularityError(...)
```
The two methods differ only in the raised error class and message; the final
sample scaling/cast step does not interact with this validation.  `np.tile`
of an array of length `n` repeated `r` times has length `r * n`. -/

/-- Repeat-and-revalidate portion of `check_wfm`; `none` marks a diverging
inner `wraparound_calc` loop. -/
def check_wfm_validate (length gran minLen : ℕ) : Option (Except String ℕ) :=
  match wraparound_calc length gran minLen with
  | none => none
  | some repeats =>
    if repeats * length < minLen then
      some (Except.error "Waveform length: rl, must be at least minLen.")
    else if repeats * length % gran ≠ 0 then
      some (Except.error "Waveform must have a granularity of gran.")
    else
      some (Except.ok (repeats * length))

/-- C10: for a non-empty waveform (and a positive device granularity), the
re-validation performed by `check_wfm` after tiling always passes: the two
raise branches are unreachable and the method returns the tiled length. -/
theorem check_wfm_validate_ok (length gran minLen : ℕ)
    (hl : 0 < length) (hg : 0 < gran) :
    ∃ rl, check_wfm_validate length gran minLen = some (Except.ok rl) := by
  have hex := satRepeat_exists length gran minLen hl hg
  have hspec := Nat.find_spec hex
  refine ⟨Nat.find hex * length, ?_⟩
  unfold check_wfm_validate
  rw [wraparound_calc_eq_find length gran minLen hl hg]
  dsimp only
  rw [if_neg (by push_neg; exact hspec.2.2), if_neg (by push_neg; exact hspec.2.1)]

/-- Witness for C10: a length-3 waveform against granularity 8 and minimum
length 5 tiles to 24 samples and revalidates cleanly. -/
theorem check_wfm_validate_ok_witness :
    0 < 3 ∧ 0 < 8 ∧ ∃ rl, check_wfm_validate 3 8 5 = some (Except.ok rl) :=
  ⟨by decide, by decide, check_wfm_validate_ok 3 8 5 (by decide) (by decide)⟩

/-! ## Binary exponent extraction

Python computes binary exponents with `math.log`/`math.frexp` on floats.  In
the exact rational model the binary exponent of `x > 0` is `⌊log₂ x⌋`,
computed here by structural recursion (so that the kernel can evaluate it). -/

/-- Fuel-indexed floor-log₂ of a natural number (`lg2go n n` is exact for
`n ≥ 1` because the argument at least halves each step). -/
def lg2go : ℕ → ℕ → ℕ
  | 0, _ => 0
  | fuel + 1, n => if n < 2 then 0 else lg2go fuel (n / 2) + 1

/-- Floor of log₂ on naturals, `natLog2 n = ⌊log₂ n⌋` for `n ≥ 1`. -/
def natLog2 (n : ℕ) : ℕ := lg2go n n

/-- Fuel-indexed ceiling-log₂ of a natural number. -/
def clg2go : ℕ → ℕ → ℕ
  | 0, _ => 0
  | fuel + 1, n => if n ≤ 1 then 0 else clg2go fuel ((n + 1) / 2) + 1

/-- Ceiling of log₂ on naturals, `natClog2 n = ⌈log₂ n⌉` for `n ≥ 1`. -/
def natClog2 (n : ℕ) : ℕ := clg2go n n

/-- Floor of log₂ of a positive rational: the exact value of Python's
`math.floor(math.log(x) / math.log(2))` (and of `frexp`'s exponent minus
one).  For `x ≤ 0` Python raises instead; callers guard that case. -/
def qlog2 (x : ℚ) : ℤ :=
  if 1 ≤ x then (natLog2 ⌊x⌋.toNat : ℤ) else -(natClog2 ⌈x⁻¹⌉.toNat : ℤ)

theorem lg2go_spec : ∀ fuel n, 0 < n → n ≤ fuel →
    2 ^ lg2go fuel n ≤ n ∧ n < 2 ^ (lg2go fuel n + 1) := by
  intro fuel
  induction fuel with
  | zero => intro n h1 h2; omega
  | succ f ih =>
    intro n h1 h2
    unfold lg2go
    by_cases hsmall : n < 2
    · rw [if_pos hsmall]
      constructor <;> simp <;> omega
    · rw [if_neg hsmall]
      have hd1 : 0 < n / 2 := by omega
      have hd2 : n / 2 ≤ f := by omega
      obtain ⟨hlo, hhi⟩ := ih (n / 2) hd1 hd2
      constructor
      · calc 2 ^ (lg2go f (n / 2) + 1) = 2 * 2 ^ lg2go f (n / 2) := by ring
          _ ≤ 2 * (n / 2) := by omega
          _ ≤ n := by omega
      · calc n < 2 * (n / 2) + 2 := by omega
          _ ≤ 2 * 2 ^ (lg2go f (n / 2) + 1) := by omega
          _ = 2 ^ (lg2go f (n / 2) + 1 + 1) := by ring

theorem natLog2_spec (n : ℕ) (h : 0 < n) :
    2 ^ natLog2 n ≤ n ∧ n < 2 ^ (natLog2 n + 1) :=
  lg2go_spec n n h le_rfl

theorem qlog2_nonneg_of_one_le (x : ℚ) (hx : 1 ≤ x) : 0 ≤ qlog2 x := by
  unfold qlog2
  rw [if_pos hx]
  positivity

theorem qlog2_spec_of_one_le (x : ℚ) (hx : 1 ≤ x) :
    (2 : ℚ) ^ (qlog2 x).toNat ≤ x ∧ x < 2 ^ ((qlog2 x).toNat + 1) := by
  have hfl : (1 : ℤ) ≤ ⌊x⌋ := by exact_mod_cast Int.le_floor.mpr (by exact_mod_cast hx)
  have hpos : 0 < ⌊x⌋.toNat := by omega
  obtain ⟨hlo, hhi⟩ := natLog2_spec ⌊x⌋.toNat hpos
  have hq : qlog2 x = (natLog2 ⌊x⌋.toNat : ℤ) := by unfold qlog2; rw [if_pos hx]
  have htn : (qlog2 x).toNat = natLog2 ⌊x⌋.toNat := by rw [hq]; exact Int.toNat_natCast _
  rw [htn]
  constructor
  · calc ((2 : ℚ) ^ natLog2 ⌊x⌋.toNat) = ((2 ^ natLog2 ⌊x⌋.toNat : ℕ) : ℚ) := by push_cast; ring
      _ ≤ ((⌊x⌋.toNat : ℕ) : ℚ) := by exact_mod_cast hlo
      _ = ((⌊x⌋ : ℤ) : ℚ) := by
          exact_mod_cast Int.toNat_of_nonneg (show (0:ℤ) ≤ ⌊x⌋ by omega)
      _ ≤ x := Int.floor_le x
  · calc x < (⌊x⌋ : ℚ) + 1 := Int.lt_floor_add_one x
      _ = ((⌊x⌋.toNat : ℕ) : ℚ) + 1 := by
          have h := Int.toNat_of_nonneg (show (0:ℤ) ≤ ⌊x⌋ by omega)
          exact_mod_cast congrArg (fun z : ℤ => (z : ℚ) + 1) h.symm
      _ ≤ ((2 ^ (natLog2 ⌊x⌋.toNat + 1) - 1 : ℕ) : ℚ) + 1 := by
          have : ⌊x⌋.toNat ≤ 2 ^ (natLog2 ⌊x⌋.toNat + 1) - 1 := by omega
          exact_mod_cast add_le_add_right (Nat.cast_le.mpr this) 1
      _ ≤ (2 : ℚ) ^ (natLog2 ⌊x⌋.toNat + 1) := by
          have h1 : (1 : ℕ) ≤ 2 ^ (natLog2 ⌊x⌋.toNat + 1) := Nat.one_le_two_pow
          push_cast [Nat.cast_sub h1]
          ring_nf
          norm_num

/-! ## `closest_m_2_n` (AnalogUXG, instruments.py lines 1994-2034)

```python
maxMantissa = np.uint32((1 << mantissaBits) - 1)
if inputVal < (maxMantissa + 0.5):
    exponent = 0
    mantissa = np.uint32((inputVal + 0.5))
    if mantissa > maxMantissa: mantissa = maxMantissa
else:
    mantissaOut, possibleExponent = math.frexp(inputVal)
    possibleExponent -= mantissaBits
    fracMantissa = float(inputVal / (1 << possibleExponent))
    if fracMantissa > (maxMantissa + 0.5 - 1e-9):
        mantissa = 1 << (mantissaBits - 1)
        possibleExponent += 1
    else:
        mantissa = np.uint32((fracMantissa + 0.5))
        if mantissa > maxMantissa: mantissa = maxMantissa
    exponent = np.uint32(possibleExponent)
return success, exponent, mantissa
```
`frexp(v)` for `v > 0` returns the exponent `E` with `2^(E-1) ≤ v < 2^E`,
i.e. `E = ⌊log₂ v⌋ + 1`; the float literal `1e-9` is modelled as the exact
rational `10⁻⁹`.  `possibleExponent` is nonnegative whenever the `else`
branch runs (proved below), so the `np.uint32` casts are value-preserving
there; they are still modelled bit-faithfully via `low32`/`pyUint32`. -/

/-- The `frexp`-derived candidate exponent of the second branch:
`frexp(v)[1] - mantissaBits`. -/
def frexpShifted (v : ℚ) (mantissaBits : ℕ) : ℤ := qlog2 v + 1 - mantissaBits

/-- `closest_m_2_n(inputVal, mantissaBits, exponent_bits)`: hardware
mantissa/exponent decomposition, returning `(success, exponent, mantissa)`.
`exponent_bits` is unused by the source. -/
def closest_m_2_n (inputVal : ℚ) (mantissaBits exponent_bits : ℕ) : Bool × ℕ × ℕ :=
  let maxMantissa : ℕ := 2 ^ mantissaBits - 1
  if inputVal < (maxMantissa : ℚ) + 1/2 then
    let mantissa := pyUint32 (inputVal + 1/2)
    (true, 0, if mantissa > maxMantissa then maxMantissa else mantissa)
  else
    let possibleExponent : ℤ := frexpShifted inputVal mantissaBits
    let fracMantissa : ℚ := inputVal / (2 : ℚ) ^ possibleExponent
    if fracMantissa > (maxMantissa : ℚ) + 1/2 - 1/1000000000 then
      (true, low32 (possibleExponent + 1), 1 <<< (mantissaBits - 1))
    else
      let mantissa := pyUint32 (fracMantissa + 1/2)
      (true, low32 possibleExponent, if mantissa > maxMantissa then maxMantissa else mantissa)

/-- The magnitude `mantissa * 2^exponent` encoded by `closest_m_2_n`. -/
def closestMag (inputVal : ℚ) (mantissaBits exponent_bits : ℕ) : ℚ :=
  let r := closest_m_2_n inputVal mantissaBits exponent_bits
  (r.2.2 : ℚ) * 2 ^ r.2.1

/-! ## `chirp_closest_m_2_n` (AnalogUXG, lines 2036-2071) -/

/-- `chirp_closest_m_2_n(chirpRate, chirpRateRes=21.822)`: 13-bit mantissa /
4-bit exponent chirp-rate register encoding with the exponent pre-scaled by
two.  The float default `21.822` is modelled as the exact rational
`21822/1000` (the spec treats the constant as opaque). -/
def chirp_closest_m_2_n (chirpRate : ℚ) (chirpRateRes : ℚ) : ℕ :=
  let mantissaBits : ℕ := 13
  let exponentBits : ℕ := 4
  let mantissaMask : ℕ := 2 ^ mantissaBits - 1
  let chirpValue : ℚ := chirpRate / chirpRateRes
  let r := closest_m_2_n chirpValue mantissaBits exponentBits
  -- compensate for exponent being multiplied by 2; np.uint32(mantissa/2) = ⌊mantissa/2⌋
  let em : ℕ × ℕ :=
    if r.2.1 % 2 = 1 then ((r.2.1 + 1) / 2, r.2.2 / 2) else (r.2.1 / 2, r.2.2)
  if r.1 then ((em.1 <<< mantissaBits) ||| (em.2 &&& mantissaMask)) % 4294967296 else 0

/-! ## `convert_to_floating_point` (AnalogUXG, lines 1947-1992)

```python
maxExponent = int((1 << exponentBits) - 1)
maxMantissa = np.uint32(((1 << mantissaBits) - 1))
exponent = int(math.floor(((math.log(inputVal) / math.log(2)) - exponentOffset)))
if exponent > maxExponent:
    exponent = maxExponent; mantissa = maxMantissa
elif exponent >= 0:
    mantissaScale = int((1 << mantissaBits))
    effectiveExponent = int(exponentOffset + exponent)
    mantissa = np.uint32((((math.ldexp(inputVal, - effectiveExponent) - 1) * mantissaScale) + 0.5))
    if mantissa > maxMantissa:
        if exponent < maxExponent: mantissa = 0; exponent += 1
        else: mantissa = maxMantissa
else:
    mantissa = 0; exponent = 0
return ((np.uint32(exponent)) << mantissaBits) | mantissa
```
`math.log(inputVal)` raises `ValueError: math domain error` for
`inputVal <= 0`; `ldexp(v, -e)` is `v * 2^(-e)`; `exponentOffset` is an
integer at every call site, so `floor(log2(v) - offset) = ⌊log₂ v⌋ - offset`. -/

/-- `convert_to_floating_point(inputVal, exponentOffset, mantissaBits,
exponentBits)`: packed custom float `(exponent << mantissaBits) | mantissa`,
or the `math.log` domain error for non-positive input. -/
def convert_to_floating_point (inputVal : ℚ) (exponentOffset : ℤ)
    (mantissaBits exponentBits : ℕ) : Except String ℕ :=
  if inputVal ≤ 0 then Except.error "math domain error"
  else
    let maxExponent : ℤ := 2 ^ exponentBits - 1
    let maxMantissa : ℕ := 2 ^ mantissaBits - 1
    let exponent : ℤ := qlog2 inputVal - exponentOffset
    if exponent > maxExponent then
      Except.ok ((low32 maxExponent <<< mantissaBits) ||| maxMantissa % 4294967296)
    else if 0 ≤ exponent then
      let effectiveExponent : ℤ := exponentOffset + exponent
      let mantissa : ℕ :=
        pyUint32 ((inputVal * (2 : ℚ) ^ (-effectiveExponent) - 1) * 2 ^ mantissaBits + 1/2)
      if mantissa > maxMantissa then
        if exponent < maxExponent then
          Except.ok ((low32 (exponent + 1) <<< mantissaBits) ||| 0)
        else
          Except.ok ((low32 exponent <<< mantissaBits) ||| maxMantissa % 4294967296)
      else
        Except.ok ((low32 exponent <<< mantissaBits) ||| mantissa)
    else
      Except.ok ((low32 0 <<< mantissaBits) ||| 0)

/-! ## PDW word builders

Each builder fills a `np.zeros(n, dtype=np.uint32)` array; the model returns
the list of its 32-bit words.  Fixed-point conversions follow the source
exactly over exact rational arithmetic; word assembly uses `word32`
(see its documentation for the two's-complement identity used).

`AnalogUXG.bin_pdw_builder` converts its `power` argument (dB) with
`math.pow(10, power / 20)` before packing; the transcendental power is not
representable in `ℚ`, so the model takes that already-exponentiated linear
value `powerLinear` as the argument.  No claim concerns the numeric value of
the packed power field. -/

/-- AnalogUXG.bin_pdw_builder (lines 2073-2128): format-1 analog-UXG PDW.
Note the source allocates `np.zeros(7, ...)` and fills words 0-6.
`powerLinear = math.pow(10, power / 20)` is strictly positive in the source,
so `convert_to_floating_point` never takes its domain-error branch in this
call; the model totalizes the lookup with `getD 0`. -/
def analog_bin_pdw_builder (operation : ℕ) (freq phase startTimeSec width : ℚ)
    (powerLinear : ℚ) (markers pulseMode phaseControl bandAdjust chirpControl code : ℕ)
    (chirpRate : ℚ) (freqMap : ℕ) : List ℕ :=
  let pdwFormat : ℤ := 1
  let _freq := pyInt (freq * 1024 + 1/2)
  let phaseN := if 180 < phase ∧ phase ≤ 360 then phase - 360 else phase
  let _phase := pyInt (phaseN * 4096 / 360 + 1/2)
  let _startTimePs := pyInt (startTimeSec * 10 ^ 12)
  let _widthNs := pyInt (width * 10 ^ 9)
  let _power : ℕ := (convert_to_floating_point powerLinear (-26) 10 5).toOption.getD 0
  let _chirpRate : ℕ := chirp_closest_m_2_n chirpRate (21822/1000)
  [ -- Word 0: pdw format (3 bits), operation (2 bits), lower 27 bits of freq
    word32 [pdwFormat, pyShl operation 3, (pyShl _freq 5).emod 4294967296],
    -- Word 1: upper 20 bits (47 - 27) of freq and phase (12 bits)
    word32 [pyShr _freq 27, pyShl _phase 20],
    -- Word 2: lower 32 bits of startTimePs
    word32 [_startTimePs],
    -- Word 3: upper 32 bits of startTimePs ((x & 0xFFFFFFFF00000000) >> 32)
    word32 [(Int.emod _startTimePs (2 ^ 64)).fdiv (2 ^ 32)],
    -- Word 4: pulse width (32 bits)
    word32 [_widthNs],
    -- Word 5: power (15), markers (12), pulseMode (2), phaseControl (1), bandAdjust (2)
    word32 [(_power : ℤ), pyShl markers 15, pyShl pulseMode 27,
            pyShl phaseControl 29, pyShl bandAdjust 30],
    -- Word 6: chirpControl, code (<< 3), chirpRate (<< 12), freqMap (<< 29)
    word32 [(chirpControl : ℤ), pyShl code 3, pyShl (_chirpRate : ℤ) 12, pyShl freqMap 29] ]

/-- VectorUXG.bin_pdw_builder (lines 2654-2702): legacy format-1 vector PDW
(6 words). -/
def vector_bin_pdw_builder (operation : ℕ) (freq phase startTimeSec power : ℚ)
    (markers phaseControl rfOff wIndex wfmMkrMask : ℕ) : List ℕ :=
  let pdwFormat : ℤ := 1
  let _freq := pyInt (freq * 1024 + 1/2)
  let _phase := pyInt (phase * 4096 / 360 + 1/2)
  let _startTimePs := pyInt (startTimeSec * 10 ^ 12)
  let _power := pyInt ((power + 140) / (5/1000) + 1/2)
  [ -- Word 0: pdw format (3 bits), operation (2 bits), lower 27 bits of freq
    word32 [pdwFormat, pyShl operation 3, pyShl _freq 5],
    -- Word 1: upper 20 bits (47 - 27) of freq and phase (12 bits)
    word32 [pyShr _freq 27, pyShl _phase 20],
    -- Word 2: lower 32 bits of startTimePs
    word32 [_startTimePs],
    -- Word 3: upper 32 bits of startTimePs
    word32 [(Int.emod _startTimePs (2 ^ 64)).fdiv (2 ^ 32)],
    -- Word 4: power (15), markers (12), phaseControl (1), rfOff (1)
    word32 [_power, pyShl markers 15, pyShl phaseControl 27, pyShl rfOff 28],
    -- Word 5: wIndex (16 bits), 12 reserved bits, wfmMkrMask (4 bits)
    word32 [(wIndex : ℤ), pyShl 0 16, pyShl wfmMkrMask 28] ]

/-- VectorUXG.bin_pdw_builder_3 (lines 2590-2652): format-3 vector PDW.  The
source allocates `np.zeros(11, ...)` and fills words 0-7, leaving words
8-10 zero. -/
def vector_bin_pdw_builder_3 (operation : ℕ) (freq phase startTimeSec width : ℚ)
    (maxPower : ℚ) (markers : ℕ) (power : ℚ) (phaseControl rfOff autoBlank zeroHold : ℕ)
    (loLead : ℚ) (wfmMkrMask wIndex : ℕ) : List ℕ :=
  let pdwFormat : ℤ := 3
  let _freq := pyInt (freq * 1024 + 1/2)
  let _phase := pyInt (phase * 4096 / 360 + 1/2)
  let _startTimePs := pyInt (startTimeSec * 10 ^ 12)
  let _pulseWidthPs := pyInt (width * 10 ^ 12 * 2)
  let _maxPower := pyInt ((maxPower + 140) / (5/1000) + 1/2)
  let _power := pyInt ((power + 140) / (5/1000) + 1/2)
  let _loLead := pyInt (loLead / (4/1000000000))
  let _newWfm : ℤ := 1
  let _wfmType : ℤ := 0
  [ -- Word 0: pdw format (3 bits), operation (2 bits), lower 27 bits of freq
    word32 [pdwFormat, pyShl operation 3, pyShl _freq 5],
    -- Word 1: upper 20 bits (47 - 27) of freq and phase (12 bits)
    word32 [pyShr _freq 27, pyShl _phase 20],
    -- Word 2: lower 32 bits of startTimePs
    word32 [_startTimePs],
    -- Word 3: upper 32 bits of startTimePs
    word32 [(Int.emod _startTimePs (2 ^ 64)).fdiv (2 ^ 32)],
    -- Word 4: lower 32 bits of pulse width (37 bits)
    word32 [_pulseWidthPs],
    -- Word 5: upper 5 bits of pulse width ((x & 0x1F00000000) >> 32), maxPower (15), markers (12)
    word32 [(Int.emod _pulseWidthPs (2 ^ 37)).fdiv (2 ^ 32), pyShl _maxPower 5, pyShl markers 20],
    -- Word 6: power (15), phaseControl, rfOff, autoBlank, newWfm, zeroHold, loLead (8), mkr mask (4)
    word32 [_power, pyShl phaseControl 15, pyShl rfOff 16, pyShl autoBlank 17,
            pyShl _newWfm 18, pyShl zeroHold 19, pyShl _loLead 20, pyShl wfmMkrMask 28],
    -- Word 7: reserved (8), wfm type (2), index (16)
    word32 [pyShl _wfmType 8, pyShl wIndex 10],
    0, 0, 0 ]

/-- C4 (amended): the word counts are fixed per builder, but the analog
format-1 builder emits 7 words, not 6: for every parameter list,
`AnalogUXG.bin_pdw_builder` returns 7 words, `VectorUXG.bin_pdw_builder`
(format 1) returns 6 words and `VectorUXG.bin_pdw_builder_3` (format 3)
returns 11 words. -/
theorem pdw_builder_word_counts :
    (∀ operation freq phase startTimeSec width powerLinear markers pulseMode
        phaseControl bandAdjust chirpControl code chirpRate freqMap,
      (analog_bin_pdw_builder operation freq phase startTimeSec width powerLinear
        markers pulseMode phaseControl bandAdjust chirpControl code chirpRate
        freqMap).length = 7) ∧
    (∀ operation freq phase startTimeSec power markers phaseControl rfOff wIndex
        wfmMkrMask,
      (vector_bin_pdw_builder operation freq phase startTimeSec power markers
        phaseControl rfOff wIndex wfmMkrMask).length = 6) ∧
    (∀ operation freq phase startTimeSec width maxPower markers power phaseControl
        rfOff autoBlank zeroHold loLead wfmMkrMask wIndex,
      (vector_bin_pdw_builder_3 operation freq phase startTimeSec width maxPower
        markers power phaseControl rfOff autoBlank zeroHold loLead wfmMkrMask
        wIndex).length = 11) := by
  refine ⟨fun _ _ _ _ _ _ _ _ _ _ _ _ _ _ => rfl,
    fun _ _ _ _ _ _ _ _ _ _ => rfl,
    fun _ _ _ _ _ _ _ _ _ _ _ _ _ _ _ => rfl⟩

/-- Counterexample for C4 as stated: the analog-UXG format-1 builder packs a
seventh word (chirp control/rate and frequency-band map), so at a concrete
input its output has 7 words, not 6. -/
theorem analog_format1_pdw_not_six_words :
    (analog_bin_pdw_builder 0 0 0 0 0 1 0 2 0 0 0 0 0 0).length = 7 ∧
    (analog_bin_pdw_builder 0 0 0 0 0 1 0 2 0 0 0 0 0 0).length ≠ 6 := by
  exact ⟨rfl, by decide⟩

/-! ## C7: field-width validation in the PDW encoders -/

/-- C7 (amended): the PDW encoders perform no field-range validation at all.
They never fail (every parameter list yields the full fixed-size word list),
and an oversize field value is silently wrapped or merged into neighbouring
bit fields: in the vector format-1 builder a 13-bit `markers` value `4096`
(field width 12 bits) produces exactly the same words as `markers = 0` with
`phaseControl = 1`, for every choice of the remaining parameters. -/
theorem pdw_builder_no_field_validation :
    (∀ operation freq phase startTimeSec power markers phaseControl rfOff wIndex
        wfmMkrMask,
      (vector_bin_pdw_builder operation freq phase startTimeSec power markers
        phaseControl rfOff wIndex wfmMkrMask).length = 6) ∧
    (∀ (operation : ℕ) (freq phase startTimeSec power : ℚ) (wIndex wfmMkrMask : ℕ),
      vector_bin_pdw_builder operation freq phase startTimeSec power 4096 0 0
        wIndex wfmMkrMask =
      vector_bin_pdw_builder operation freq phase startTimeSec power 0 1 0
        wIndex wfmMkrMask) := by
  constructor
  · intro _ _ _ _ _ _ _ _ _ _
    rfl
  · intro operation freq phase startTimeSec power wIndex wfmMkrMask
    unfold vector_bin_pdw_builder
    unfold word32 pyShl low32
    norm_num

/-- Counterexample for C7 as stated: at a concrete parameter list whose
`markers` value does not fit the 12-bit markers field, the format-1 vector
encoder does not fail before packing — it returns the packed words, and they
coincide with the words of a different, in-range parameter list (the
oversize bit landed in the `phaseControl` field). -/
theorem pdw_builder_silent_truncation_cex :
    vector_bin_pdw_builder 0 0 0 0 0 4096 0 0 0 0 =
      vector_bin_pdw_builder 0 0 0 0 0 0 1 0 0 0 ∧
    (vector_bin_pdw_builder 0 0 0 0 0 4096 0 0 0 0).length = 6 := by
  constructor
  · unfold vector_bin_pdw_builder
    unfold word32 pyShl low32
    norm_num
  · rfl

/-! ## `iq_wfm_combiner` (M8190A lines 438-454, VectorUXG lines 2848-2862)

```python
iq = np.empty(2 * len(i), dtype=np.int16)   # VectorUXG: dtype=np.uint16
iq[0::2] = i
iq[1::2] = q
return iq
```
`iq[0::2]` has exactly `len(i)` slots, so the first assignment always
succeeds.  `iq[1::2]` also has `len(i)` slots; numpy assigns `q` into it
under the broadcasting rule for one-dimensional arrays: the assignment
succeeds iff `len(q) == len(i)` or `len(q) == 1` (a length-1 array is
broadcast to every slot), and raises
`ValueError: could not broadcast input array ...` otherwise.  Stored
elements undergo the dtype cast (wraparound to int16/uint16). -/

/-- Value stored in a `np.int16` array element (two's-complement wrap). -/
def toInt16 (x : ℤ) : ℤ := (x + 32768).emod 65536 - 32768

/-- Value stored in a `np.uint16` array element. -/
def toUint16 (x : ℤ) : ℤ := x.emod 65536

/-- Shared slice-interleaving of `iq_wfm_combiner`, parameterized by the
dtype cast.  The result lists even slots (from `i`) and odd slots (from `q`,
broadcast when `len(q) == 1`) in order. -/
def iq_combine (cast : ℤ → ℤ) (i q : List ℤ) : Except String (List ℤ) :=
  if q.length = i.length ∨ q.length = 1 then
    Except.ok (((List.range i.length).map
      (fun k => [cast (i.getD k 0), cast (q.getD (if q.length = 1 then 0 else k) 0)])).flatten)
  else
    Except.error "could not broadcast input array"

/-- M8190A.iq_wfm_combiner: int16 interleaved output. -/
def M8190A_iq_wfm_combiner (i q : List ℤ) : Except String (List ℤ) :=
  iq_combine toInt16 i q

/-- VectorUXG.iq_wfm_combiner: uint16 interleaved output. -/
def VectorUXG_iq_wfm_combiner (i q : List ℤ) : Except String (List ℤ) :=
  iq_combine toUint16 i q

theorem pairJoin_length (f g : ℕ → ℤ) (n : ℕ) :
    (((List.range n).map (fun k => [f k, g k])).flatten).length = 2 * n := by
  induction n with
  | zero => rfl
  | succ m ih =>
    rw [List.range_succ, List.map_append, List.flatten_append]
    simp only [List.length_append, ih, List.map_cons, List.map_nil, List.flatten_cons,
      List.flatten_nil, List.append_nil, List.length_cons, List.length_nil]
    omega

theorem pairJoin_getD (f g : ℕ → ℤ) (n k : ℕ) (hk : k < n) :
    (((List.range n).map (fun j => [f j, g j])).flatten).getD (2 * k) 0 = f k ∧
    (((List.range n).map (fun j => [f j, g j])).flatten).getD (2 * k + 1) 0 = g k := by
  induction n with
  | zero => omega
  | succ m ih =>
    rw [List.range_succ, List.map_append, List.flatten_append]
    rcases Nat.lt_or_ge k m with hlt | hge
    · have hlen := pairJoin_length f g m
      constructor
      · rw [List.getD_append _ _ _ _ (by omega)]
        exact (ih hlt).1
      · rw [List.getD_append _ _ _ _ (by omega)]
        exact (ih hlt).2
    · have hkm : k = m := by omega
      subst hkm
      have hlen := pairJoin_length f g k
      constructor
      · rw [List.getD_append_right _ _ _ _ (by omega)]
        simp [hlen]
      · rw [List.getD_append_right _ _ _ _ (by omega)]
        have h1 : 2 * k + 1 - (((List.range k).map (fun j => [f j, g j])).flatten).length = 1 := by
          omega
        rw [h1]
        simp

/-- C5 (amended): with `len(q)` equal to neither `len(i)` nor `1` the
combiners fail with numpy's broadcast `ValueError` (there is no dedicated
`LengthMismatch` error in the source); with equal lengths `n` the output has
length `2n` and interleaves the dtype-cast samples (`output[2k] = i[k]`,
`output[2k+1] = q[k]` for samples within the 16-bit range); with
`len(q) == 1` the assignment broadcasts `q[0]` over every odd slot instead
of failing. -/
theorem iq_wfm_combiner_interleave :
    (∀ i q : List ℤ, q.length ≠ i.length → q.length ≠ 1 →
      M8190A_iq_wfm_combiner i q = Except.error "could not broadcast input array" ∧
      VectorUXG_iq_wfm_combiner i q = Except.error "could not broadcast input array") ∧
    (∀ i q : List ℤ, q.length = i.length →
      ∃ out, M8190A_iq_wfm_combiner i q = Except.ok out ∧
        out.length = 2 * i.length ∧
        ∀ k, k < i.length →
          out.getD (2 * k) 0 = toInt16 (i.getD k 0) ∧
          out.getD (2 * k + 1) 0 = toInt16 (q.getD k 0)) ∧
    (∀ i q : List ℤ, q.length = i.length →
      ∃ out, VectorUXG_iq_wfm_combiner i q = Except.ok out ∧
        out.length = 2 * i.length ∧
        ∀ k, k < i.length →
          out.getD (2 * k) 0 = toUint16 (i.getD k 0) ∧
          out.getD (2 * k + 1) 0 = toUint16 (q.getD k 0)) ∧
    (∀ i q : List ℤ, q.length = 1 → 1 ≠ i.length →
      ∃ out, M8190A_iq_wfm_combiner i q = Except.ok out ∧
        out.length = 2 * i.length ∧
        ∀ k, k < i.length →
          out.getD (2 * k) 0 = toInt16 (i.getD k 0) ∧
          out.getD (2 * k + 1) 0 = toInt16 (q.getD 0 0)) := by
  refine ⟨?_, ?_, ?_, ?_⟩
  · intro i q h1 h2
    constructor
    · unfold M8190A_iq_wfm_combiner iq_combine
      rw [if_neg (by tauto)]
    · unfold VectorUXG_iq_wfm_combiner iq_combine
      rw [if_neg (by tauto)]
  · intro i q hlen
    refine ⟨((List.range i.length).map
        (fun j => [toInt16 (i.getD j 0),
          toInt16 (q.getD (if q.length = 1 then 0 else j) 0)])).flatten, ?_, ?_, ?_⟩
    · unfold M8190A_iq_wfm_combiner iq_combine
      rw [if_pos (Or.inl hlen)]
    · exact pairJoin_length _ _ _
    · intro k hk
      have h := pairJoin_getD (fun j => toInt16 (i.getD j 0))
        (fun j => toInt16 (q.getD (if q.length = 1 then 0 else j) 0)) i.length k hk
      by_cases hone : q.length = 1
      · have hk0 : k = 0 := by omega
        subst hk0
        simpa [hone] using h
      · simpa [hone] using h
  · intro i q hlen
    refine ⟨((List.range i.length).map
        (fun j => [toUint16 (i.getD j 0),
          toUint16 (q.getD (if q.length = 1 then 0 else j) 0)])).flatten, ?_, ?_, ?_⟩
    · unfold VectorUXG_iq_wfm_combiner iq_combine
      rw [if_pos (Or.inl hlen)]
    · exact pairJoin_length _ _ _
    · intro k hk
      have h := pairJoin_getD (fun j => toUint16 (i.getD j 0))
        (fun j => toUint16 (q.getD (if q.length = 1 then 0 else j) 0)) i.length k hk
      by_cases hone : q.length = 1
      · have hk0 : k = 0 := by omega
        subst hk0
        simpa [hone] using h
      · simpa [hone] using h
  · intro i q hq hne
    refine ⟨((List.range i.length).map
        (fun j => [toInt16 (i.getD j 0),
          toInt16 (q.getD (if q.length = 1 then 0 else j) 0)])).flatten, ?_, ?_, ?_⟩
    · unfold M8190A_iq_wfm_combiner iq_combine
      rw [if_pos (Or.inr hq)]
    · exact pairJoin_length _ _ _
    · intro k hk
      have h := pairJoin_getD (fun j => toInt16 (i.getD j 0))
        (fun j => toInt16 (q.getD (if q.length = 1 then 0 else j) 0)) i.length k hk
      simpa [hq] using h

/-- Witness for C5 (amended): a concrete two-versus-three length mismatch is
rejected by both combiners with the broadcast error. -/
theorem iq_wfm_combiner_interleave_witness :
    M8190A_iq_wfm_combiner [3, 4] [7, 8, 9] =
      Except.error "could not broadcast input array" ∧
    VectorUXG_iq_wfm_combiner [3, 4] [7, 8, 9] =
      Except.error "could not broadcast input array" :=
  iq_wfm_combiner_interleave.1 [3, 4] [7, 8, 9] (by decide) (by decide)

/-- Counterexample for C5 as stated: a mismatched call with `len(q) == 1`
does not fail at all — numpy broadcasts the single `q` sample across every
odd output slot. -/
theorem iq_wfm_combiner_broadcast_cex :
    ([5] : List ℤ).length ≠ ([1, 2] : List ℤ).length ∧
    M8190A_iq_wfm_combiner [1, 2] [5] = Except.ok [1, 5, 2, 5] := by
  constructor
  · decide
  · rfl

/-! ## Frequency/phase-coding metadata block (AnalogUXG, lines 2161-2264) -/

/-- IEEE-754 binary64 bit pattern of a value that is exactly representable
as a normal double — every `stateMapping` constant passed by the source
(`0`, `180`, `-10e6`, `10e6`) is.  Rounding/subnormals are not modelled; no
claim depends on these bytes beyond their count. -/
def doubleBits (x : ℚ) : ℕ :=
  if x = 0 then 0
  else
    let s : ℕ := if x < 0 then 2 ^ 63 else 0
    let e : ℤ := qlog2 |x|
    let significand : ℕ := (⌊|x| * (2 : ℚ) ^ ((52 : ℤ) - e)⌋).toNat - 2 ^ 52
    s + (e + 1023).toNat * 2 ^ 52 + significand

/-- `struct.pack("<d", x)`: 8 little-endian bytes of a double. -/
def packDoubleLE (x : ℚ) : List ℕ := u64le (doubleBits x)

/-- Value of one hexadecimal digit character, `none` for a non-hex digit. -/
def hexDigitVal (c : Char) : Option ℕ :=
  if '0' ≤ c ∧ c ≤ '9' then some (c.toNat - 48)
  else if 'a' ≤ c ∧ c ≤ 'f' then some (c.toNat - 87)
  else if 'A' ≤ c ∧ c ≤ 'F' then some (c.toNat - 55)
  else none

/-- Byte list from pairs of hex digits (`bytearray.fromhex`, which raises on
non-hex characters; odd length is pre-checked by the caller). -/
def hexPairsToBytes : List Char → Option (List ℕ)
  | [] => some []
  | c1 :: c2 :: rest => do
      let hi ← hexDigitVal c1
      let lo ← hexDigitVal c2
      let rs ← hexPairsToBytes rest
      pure ((16 * hi + lo) :: rs)
  | [_] => none

/-- `bin_freqPhaseCodingSingleEntry` (lines 2161-2217): one variable-length
frequency/phase-coding table entry.  The four leading 1-byte fields are
written with `to_bytes(1, ...)`; every call site passes values below 256,
modelled directly. -/
def bin_freqPhaseCodingSingleEntry (onOffState numBitsPerSubpulse codingType : ℕ)
    (stateMapping : List ℚ) (hexPatternString : String) (comment : String) :
    Except String (List ℕ) :=
  if hexPatternString.length % 2 ≠ 0 then
    Except.error "Hex pattern length must be a multiple of 2"
  else
    match hexPairsToBytes hexPatternString.toList with
    | none => Except.error "non-hexadecimal number found in fromhex() arg"
    | some hexPatternBytes =>
      if codingType ≠ 0 ∧ codingType ≠ 1 then
        Except.error "Only phase and frequency coding via streaming has been implemented in this example"
      else if numBitsPerSubpulse ≠ 1 then
        Except.error "Only one bit per subpulse has been implemented in this example"
      else if hexPatternBytes.length > 8192 then
        Except.error "Pattern must be less than 8192 bytes"
      else if comment.length > 60 then
        Except.error "Comment must be less than 60 characters long"
      else
        Except.ok ([onOffState, numBitsPerSubpulse, codingType, comment.length]
          ++ u32le (8 * hexPatternBytes.length)
          ++ (stateMapping.map packDoubleLE).flatten
          ++ hexPatternBytes
          ++ strBytes comment)

/-- `bin_pdw_freqPhaseCodingBlock` (lines 2219-2264): the complete hardcoded
three-entry coding block, as the list of byte chunks the source keeps. -/
def bin_pdw_freqPhaseCodingBlock : Except String (List (List ℕ)) := do
  let freqPhaseBlockId := u32le 13
  let reserved1 := u32le 0
  let version := u32le 2
  let numberOfEntries := u32le 3
  let entry0 ← bin_freqPhaseCodingSingleEntry 0 1 0 [0, 180] "" "NoCodingFirstEntry"
  let entry1 ← bin_freqPhaseCodingSingleEntry 1 1 0 [0, 180] "2A61D327" "PSKcode32bits"
  let entry2 ← bin_freqPhaseCodingSingleEntry 1 1 1 [-10000000, 10000000] "5AC4" "FSKcodeTest16bits"
  -- size does not include the blockId and reserved fields (8 bytes)
  let sizeInBytes := version.length + numberOfEntries.length
    + entry0.length + entry1.length + entry2.length
  let sizeBlock := u64le sizeInBytes
  let tempSize := ([freqPhaseBlockId, reserved1, sizeBlock, version, numberOfEntries,
    entry0, entry1, entry2].map List.length).sum
  -- fpcBlock size must be a multiple of 16 (note: a multiple-of-16 tempSize gets 16 extra bytes)
  let sizeOfEndBufferBytes := 16 - tempSize % 16
  pure [freqPhaseBlockId, reserved1, sizeBlock, version, numberOfEntries,
    entry0, entry1, entry2, toBytesLE sizeOfEndBufferBytes 0]

/-- The chunks the hardcoded coding block evaluates to (the block is a
closed computation; this name lets theorems refer to its value). -/
def analogFpcBlockChunks : List (List ℕ) :=
  bin_pdw_freqPhaseCodingBlock.toOption.getD []

theorem bin_pdw_freqPhaseCodingBlock_ok :
    bin_pdw_freqPhaseCodingBlock = Except.ok analogFpcBlockChunks := rfl

theorem analogFpcBlock_size : (analogFpcBlockChunks.map List.length).sum = 160 := by decide

/-! ## PDW file builders (AnalogUXG lines 2267-2329, VectorUXG lines 2704-2758) -/

/-- PDW-section header: blockId=16, reserved, size=`0xFFFFFFFFFFFFFFFF`
(open-ended stream); identical bytes in both builders. -/
def pdw_section_header : List (List ℕ) :=
  [u32le 16, u32le 0, u64le 0xffffffffffffffff]

/-- `AnalogUXG.paddingBlock(sizeOfPaddingAndHeaderInBytes)` (lines
2131-2158): 16-byte padding header plus zero filler.  `(0).to_bytes(n)`
raises for negative `n`, hence the guard. -/
def analog_paddingBlock (sizeOfPaddingAndHeaderInBytes : ℤ) : Except String (List (List ℕ)) :=
  let paddingFillerSize := sizeOfPaddingAndHeaderInBytes - 16
  if paddingFillerSize < 0 then
    Except.error "negative argument to to_bytes"
  else
    Except.ok [u32le 1, u32le 0, u64le paddingFillerSize.toNat,
      toBytesLE paddingFillerSize.toNat 0]

/-- AnalogUXG file header (fixed values; note the source computes the offset
field as `(fieldBlock >> 1) & 0x3fffff` with `fieldBlock = 1`). -/
def analog_header : List (List ℕ) :=
  [strBytes "STRM", u32le 1, u32le ((1 >>> 1) &&& 0x3fffff), strBytes "KEYS",
   toBytesLE 16 0, u32le 0, u32le 0, u32le 16, u32le 0]

/-- Parameter record of one analog format-1 PDW (one inner list of
`pdwList`; see `analog_bin_pdw_builder` for the `powerLinear` convention). -/
structure AnalogPdwArgs where
  operation : ℕ
  freq : ℚ
  phase : ℚ
  startTimeSec : ℚ
  width : ℚ
  powerLinear : ℚ
  markers : ℕ
  pulseMode : ℕ
  phaseControl : ℕ
  bandAdjust : ℕ
  chirpControl : ℕ
  code : ℕ
  chirpRate : ℚ
  freqMap : ℕ

/-- Bytes of one analog PDW inside the file (`np.uint32` words,
little-endian). -/
def analogPdwBytes (p : AnalogPdwArgs) : List ℕ :=
  ((analog_bin_pdw_builder p.operation p.freq p.phase p.startTimeSec p.width
    p.powerLinear p.markers p.pulseMode p.phaseControl p.bandAdjust
    p.chirpControl p.code p.chirpRate p.freqMap).map u32le).flatten

/-- `AnalogUXG.bin_pdw_file_builder(pdwList)` (lines 2267-2329):
header, coding block, padding to byte 4080, PDW-section header, PDWs and a
24-zero-byte sentinel, joined to one byte string. -/
def analog_bin_pdw_file_builder (pdwList : List AnalogPdwArgs) : Except String (List ℕ) := do
  let header := analog_header
  let tempHeaderSize := (header.map List.length).sum
  let fpcBlock ← bin_pdw_freqPhaseCodingBlock
  let fpcBlockSize := (fpcBlock.map List.length).sum
  -- PDW block header must start at byte 4080 so PDW stream data starts at byte 4097
  let paddingSize : ℤ := 4080 - tempHeaderSize - fpcBlockSize
  let padding ← analog_paddingBlock paddingSize
  let pdwFile := header ++ fpcBlock ++ padding ++ pdw_section_header
  pure (pdwFile.flatten ++ (pdwList.map analogPdwBytes).flatten ++ toBytesLE 24 0)

/-- VectorUXG file header (fixed values; the offset field is
`(1 << 1) & 0x3fffff`, and `dataId = 64`). -/
def vector_header : List (List ℕ) :=
  [strBytes "STRM", u32le 1, u32le ((1 <<< 1) &&& 0x3fffff), strBytes "KEYS",
   toBytesLE 16 0, u32le 0, u32le 0, u32le 64, u32le 0]

/-- VectorUXG padding block: fixed 4016 bytes of filler so the first PDW
begins at byte 4097 (1-indexed). -/
def vector_paddingBlock : List (List ℕ) :=
  [u32le 1, u32le 0, u64le 4016, toBytesLE 4016 0]

/-- Parameter record of one vector format-1 PDW (one inner list of
`pdwList`). -/
structure VectorPdwArgs where
  operation : ℕ
  freq : ℚ
  phase : ℚ
  startTimeSec : ℚ
  power : ℚ
  markers : ℕ
  phaseControl : ℕ
  rfOff : ℕ
  wIndex : ℕ
  wfmMkrMask : ℕ

/-- Bytes of one vector format-1 PDW inside the file. -/
def vectorPdwBytes (p : VectorPdwArgs) : List ℕ :=
  ((vector_bin_pdw_builder p.operation p.freq p.phase p.startTimeSec p.power
    p.markers p.phaseControl p.rfOff p.wIndex p.wfmMkrMask).map u32le).flatten

/-- `VectorUXG.bin_pdw_file_builder(pdwList)` (lines 2704-2758): header,
fixed padding block, PDW-section header and the PDWs (no trailing
sentinel in this builder). -/
def vector_bin_pdw_file_builder (pdwList : List VectorPdwArgs) : List ℕ :=
  (vector_header ++ vector_paddingBlock ++ pdw_section_header).flatten
    ++ (pdwList.map vectorPdwBytes).flatten

/-- Little-endian decode of a 4-byte field. -/
def u32leDecode (bs : List ℕ) : ℕ :=
  match bs with
  | [b0, b1, b2, b3] => b0 + 256 * b1 + 65536 * b2 + 16777216 * b3
  | _ => 0

/-- C2: the header offset field.  The VectorUXG builder writes
`(1 << 1) & 0x3fffff = 2` (bytes `02 00 00 00`) as the spec demands, but the
AnalogUXG builder computes `(fieldBlock >> 1) & 0x3fffff` — a right shift —
which collapses `fieldBlock = 1` to `0`, so its files carry offset bytes
`00 00 00 00`. -/
theorem pdw_file_header_offset_field :
    ((analog_bin_pdw_file_builder []).map (fun f => (f.drop 8).take 4)) =
      Except.ok [0, 0, 0, 0] ∧
    ((vector_bin_pdw_file_builder []).drop 8).take 4 = [2, 0, 0, 0] ∧
    (1 >>> 1) &&& 0x3fffff = 0 ∧ (1 <<< 1) &&& 0x3fffff = 2 := by
  refine ⟨by rfl, by decide, by decide, by decide⟩

/-- Padding chunks the analog builder computes for its hardcoded coding
block (filler `4080 - 48 - 160 - 16 = 3856` bytes). -/
def analog_padding_chunks : List (List ℕ) :=
  [u32le 1, u32le 0, u64le 3856, toBytesLE 3856 0]

/-- Everything before the PDW records in an analog PDW file. -/
def analog_file_front : List ℕ :=
  (analog_header ++ analogFpcBlockChunks ++ analog_padding_chunks
    ++ pdw_section_header).flatten

theorem analog_file_builder_eq (ps : List AnalogPdwArgs) :
    analog_bin_pdw_file_builder ps =
      Except.ok (analog_file_front ++ (ps.map analogPdwBytes).flatten
        ++ toBytesLE 24 0) := rfl

/-- C3: byte-counted PDW-section placement.  In both builders the content
before the PDW records is exactly 4096 bytes (header + optional coding block
+ padding = 4080, a multiple of 16, then the 16-byte PDW-section header).
The VectorUXG header's offset field decodes to that position
(`(field >> 1) * 4096 = 4096` with field value 2), but the AnalogUXG header
declares field value 0 — the `>> 1` slip of C2 — so the analog file's
declared offset (0) differs from the actual PDW-section start (4096). -/
theorem vector_file_prefix_length :
    ((vector_header ++ vector_paddingBlock ++ pdw_section_header).flatten).length = 4096 ∧
    ((vector_header ++ vector_paddingBlock).flatten).length = 4080 := by
  constructor <;>
    simp [vector_header, vector_paddingBlock, pdw_section_header, List.length_flatten,
      u32le, u64le, toBytesLE_length, strBytes]

theorem analog_file_front_length :
    analog_file_front.length = 4096 ∧
    ((analog_header ++ analogFpcBlockChunks ++ analog_padding_chunks).flatten).length = 4080 := by
  have hfpc := analogFpcBlock_size
  constructor <;>
    simp [analog_file_front, analog_header, analog_padding_chunks, pdw_section_header,
      List.length_flatten, List.map_append, List.sum_append, u32le, u64le,
      toBytesLE_length, strBytes, hfpc]

theorem pdw_file_section_offset_alignment :
    (∀ ps, vector_bin_pdw_file_builder ps =
      (vector_header ++ vector_paddingBlock ++ pdw_section_header).flatten
        ++ (ps.map vectorPdwBytes).flatten) ∧
    ((vector_header ++ vector_paddingBlock ++ pdw_section_header).flatten).length = 4096 ∧
    ((vector_header ++ vector_paddingBlock).flatten).length = 4080 ∧
    (u32leDecode (((vector_bin_pdw_file_builder []).drop 8).take 4) >>> 1) * 4096 = 4096 ∧
    (∀ ps, analog_bin_pdw_file_builder ps =
      Except.ok (analog_file_front ++ (ps.map analogPdwBytes).flatten
        ++ toBytesLE 24 0)) ∧
    analog_file_front.length = 4096 ∧
    ((analog_header ++ analogFpcBlockChunks ++ analog_padding_chunks).flatten).length = 4080 ∧
    4080 % 16 = 0 ∧ 4096 % 16 = 0 ∧
    u32leDecode ((analog_file_front.drop 8).take 4) = 0 := by
  refine ⟨fun ps => rfl, vector_file_prefix_length.1, vector_file_prefix_length.2, by decide,
    analog_file_builder_eq, analog_file_front_length.1, analog_file_front_length.2,
    by decide, by decide, by decide⟩

/-! ## C8: behaviour of `convert_to_floating_point` on non-positive / tiny input -/

/-- C8 (amended): the clamp-to-zero rule applies only to positive values that
are too small to represent (computed exponent below 0): those return the
packed value 0 (exponent = 0, mantissa = 0).  A non-positive input instead
reaches `math.log`, which raises `ValueError: math domain error` — a fatal
error, not the clamp rule. -/
theorem convert_to_floating_point_small_and_nonpositive :
    (∀ (v : ℚ) (off : ℤ) (mb eb : ℕ), v ≤ 0 →
      convert_to_floating_point v off mb eb = Except.error "math domain error") ∧
    (∀ (v : ℚ) (off : ℤ) (mb eb : ℕ), 0 < v → qlog2 v - off < 0 →
      convert_to_floating_point v off mb eb = Except.ok 0) := by
  constructor
  · intro v off mb eb hv
    unfold convert_to_floating_point
    rw [if_pos hv]
  · intro v off mb eb hpos hsmall
    have hmax : (0 : ℤ) < 2 ^ eb := by positivity
    unfold convert_to_floating_point
    rw [if_neg (not_le.mpr hpos)]
    rw [if_neg (by omega : ¬ qlog2 v - off > 2 ^ eb - 1)]
    rw [if_neg (by omega : ¬ (0 : ℤ) ≤ qlog2 v - off)]
    have hz : (Int.emod 0 4294967296).toNat = 0 := by decide
    simp [low32, hz, Nat.zero_shiftLeft]

/-- Witness for C8 (amended): `qlog2 1 = 0 < offset 5`, so the value is too
small and packs to 0; and input 0 hits the `math.log` domain error. -/
theorem convert_to_floating_point_small_witness :
    ((0 : ℚ) < 1 ∧ qlog2 1 - 5 < 0 ∧
      convert_to_floating_point 1 5 10 5 = Except.ok 0) ∧
    ((0 : ℚ) ≤ 0 ∧
      convert_to_floating_point 0 (-26) 10 5 = Except.error "math domain error") := by
  have h1 : (0 : ℚ) < 1 := by norm_num
  have hq : qlog2 (1 : ℚ) = 0 := by
    simp [qlog2, natLog2, lg2go, Int.floor_one]
  have h2 : qlog2 1 - 5 < 0 := by omega
  exact ⟨⟨h1, h2, convert_to_floating_point_small_and_nonpositive.2 1 5 10 5 h1 h2⟩,
    ⟨le_refl 0, convert_to_floating_point_small_and_nonpositive.1 0 (-26) 10 5 (le_refl 0)⟩⟩

/-- Counterexample for C8 as stated: input 0 (a value `<= 0`) does not yield
the exponent-0/mantissa-0 packed encoding — `math.log(0)` raises a fatal
`ValueError` before any packing. -/
theorem convert_to_floating_point_zero_raises :
    convert_to_floating_point 0 (-26) 10 5 = Except.error "math domain error" ∧
    ¬ ∃ n, convert_to_floating_point 0 (-26) 10 5 = Except.ok n := by
  have h : convert_to_floating_point 0 (-26) 10 5 = Except.error "math domain error" := by
    unfold convert_to_floating_point
    rw [if_pos (le_refl (0 : ℚ))]
  refine ⟨h, ?_⟩
  rintro ⟨n, hn⟩
  rw [h] at hn
  cases hn

/-! ## C9: monotonicity and carry rule of `closest_m_2_n` -/

theorem low32_eq_toNat (k : ℤ) (h0 : 0 ≤ k) (hlt : k < 4294967296) :
    low32 k = k.toNat := by
  unfold low32
  rw [Int.emod_eq_of_lt h0 hlt]

theorem pyUint32_eq_floor (x : ℚ) (h0 : 0 ≤ x) (hlt : ⌊x⌋ < 4294967296) :
    pyUint32 x = ⌊x⌋.toNat := by
  unfold pyUint32 pyInt
  rw [if_pos h0]
  exact low32_eq_toNat _ (Int.floor_nonneg.mpr h0) hlt

theorem maxMantissa_cast (mb : ℕ) : ((2 ^ mb - 1 : ℕ) : ℚ) = (2 : ℚ) ^ mb - 1 := by
  have hP : (1 : ℕ) ≤ 2 ^ mb := Nat.one_le_two_pow
  push_cast [hP]
  ring

theorem closest_branch1 (v : ℚ) (mb eb : ℕ) (h0 : 0 ≤ v) (hmb : mb ≤ 32)
    (hv : v < ((2 ^ mb - 1 : ℕ) : ℚ) + 1/2) :
    closest_m_2_n v mb eb = (true, 0, ⌊v + 1/2⌋.toNat) ∧
    ⌊v + 1/2⌋.toNat ≤ 2 ^ mb - 1 := by
  have hP : (1 : ℕ) ≤ 2 ^ mb := Nat.one_le_two_pow
  rw [maxMantissa_cast] at hv
  have hfl : ⌊v + 1/2⌋ < ((2 ^ mb : ℕ) : ℤ) := by
    rw [Int.floor_lt]
    push_cast
    linarith
  have hfl0 : (0 : ℤ) ≤ ⌊v + 1/2⌋ := Int.floor_nonneg.mpr (by linarith)
  have hle : ⌊v + 1/2⌋.toNat ≤ 2 ^ mb - 1 := by omega
  have hP32 : (2 : ℕ) ^ mb ≤ 4294967296 := by
    calc (2 : ℕ) ^ mb ≤ 2 ^ 32 := Nat.pow_le_pow_right (by norm_num) hmb
      _ = 4294967296 := by norm_num
  have hlt32 : ⌊v + 1/2⌋ < 4294967296 := by omega
  refine ⟨?_, hle⟩
  simp only [closest_m_2_n]
  rw [if_pos (by rw [maxMantissa_cast]; exact hv),
    pyUint32_eq_floor _ (by linarith) hlt32,
    if_neg (by omega : ¬ ⌊v + 1/2⌋.toNat > 2 ^ mb - 1)]

theorem closestMag_branch1 (v : ℚ) (mb eb : ℕ) (h0 : 0 ≤ v) (hmb : mb ≤ 32)
    (hv : v < ((2 ^ mb - 1 : ℕ) : ℚ) + 1/2) :
    closestMag v mb eb = (⌊v + 1/2⌋.toNat : ℚ) := by
  unfold closestMag
  rw [(closest_branch1 v mb eb h0 hmb hv).1]
  norm_num

/-- Natural form of the `frexp`-derived exponent in the second branch. -/
def peNat (v : ℚ) (mb : ℕ) : ℕ := (qlog2 v).toNat + 1 - mb

theorem branch2_facts (v : ℚ) (mb : ℕ) (hmb : 1 ≤ mb)
    (hv : ((2 ^ mb - 1 : ℕ) : ℚ) + 1/2 ≤ v) :
    1 ≤ v ∧ peNat v mb + mb = (qlog2 v).toNat + 1 ∧
    frexpShifted v mb = (peNat v mb : ℤ) ∧
    (2 : ℚ) ^ (mb - 1) ≤ v / 2 ^ peNat v mb ∧ v / (2 : ℚ) ^ peNat v mb < 2 ^ mb := by
  have hP2 : (2 : ℚ) ≤ 2 ^ mb := by
    calc (2 : ℚ) = 2 ^ 1 := (pow_one 2).symm
      _ ≤ 2 ^ mb := pow_le_pow_right₀ (by norm_num) hmb
  have hv' : (2 : ℚ) ^ mb - 1 + 1/2 ≤ v := by
    rw [maxMantissa_cast] at hv
    linarith
  have h1v : (1 : ℚ) ≤ v := by linarith
  obtain ⟨hlo, hhi⟩ := qlog2_spec_of_one_le v h1v
  have hsplit : (2 : ℚ) ^ mb = 2 * 2 ^ (mb - 1) := by
    calc (2 : ℚ) ^ mb = 2 ^ (1 + (mb - 1)) := by congr 1; omega
      _ = 2 * 2 ^ (mb - 1) := by rw [pow_add, pow_one]
  have hhalf : (2 : ℚ) ^ (mb - 1) < v := by
    have h1 : (1 : ℚ) ≤ 2 ^ (mb - 1) := one_le_pow₀ (by norm_num)
    nlinarith
  have hmbn : mb ≤ (qlog2 v).toNat + 1 := by
    have hlt : (2 : ℚ) ^ (mb - 1) < 2 ^ ((qlog2 v).toNat + 1) := lt_of_lt_of_le hhalf (le_of_lt hhi)
    have := (pow_lt_pow_iff_right₀ (a := (2 : ℚ)) one_lt_two).mp hlt
    omega
  have hpe : peNat v mb + mb = (qlog2 v).toNat + 1 := by unfold peNat; omega
  have hfx : frexpShifted v mb = (peNat v mb : ℤ) := by
    unfold frexpShifted peNat
    have h0 : 0 ≤ qlog2 v := qlog2_nonneg_of_one_le v h1v
    omega
  have hppos : (0 : ℚ) < 2 ^ peNat v mb := by positivity
  have hnId : peNat v mb + (mb - 1) = (qlog2 v).toNat := by omega
  refine ⟨h1v, hpe, hfx, ?_, ?_⟩
  · rw [le_div_iff₀ hppos]
    calc (2 : ℚ) ^ (mb - 1) * 2 ^ peNat v mb = 2 ^ (peNat v mb + (mb - 1)) := by
          rw [pow_add]; ring
      _ = 2 ^ (qlog2 v).toNat := by rw [hnId]
      _ ≤ v := hlo
  · rw [div_lt_iff₀ hppos]
    calc v < 2 ^ ((qlog2 v).toNat + 1) := hhi
      _ = 2 ^ (peNat v mb + mb) := by rw [hpe]
      _ = 2 ^ mb * 2 ^ peNat v mb := by rw [pow_add]; ring

theorem peNat_le_1023 (v : ℚ) (mb : ℕ) (hmb : 1 ≤ mb) (h1v : 1 ≤ v)
    (hbig : v < 2 ^ 1024) :
    peNat v mb ≤ 1023 := by
  obtain ⟨hlo, _⟩ := qlog2_spec_of_one_le v h1v
  have hlt : (2 : ℚ) ^ (qlog2 v).toNat < 2 ^ 1024 := lt_of_le_of_lt hlo hbig
  have := (pow_lt_pow_iff_right₀ (a := (2 : ℚ)) one_lt_two).mp hlt
  unfold peNat
  omega

theorem closest_branch2_carry (v : ℚ) (mb eb : ℕ) (hmb : 1 ≤ mb)
    (hbig : v < 2 ^ 1024)
    (hv : ¬ v < ((2 ^ mb - 1 : ℕ) : ℚ) + 1/2)
    (hcar : v / (2 : ℚ) ^ peNat v mb > ((2 ^ mb - 1 : ℕ) : ℚ) + 1/2 - 1/1000000000) :
    closest_m_2_n v mb eb = (true, peNat v mb + 1, 2 ^ (mb - 1)) := by
  obtain ⟨h1v, hpe, hfx, hl, hh⟩ := branch2_facts v mb hmb (not_lt.mp hv)
  have hpebd := peNat_le_1023 v mb hmb h1v hbig
  simp only [closest_m_2_n]
  rw [if_neg hv, hfx, zpow_natCast]
  rw [if_pos hcar]
  have h32 : ((peNat v mb : ℤ) + 1) < 4294967296 := by omega
  rw [low32_eq_toNat _ (by omega) h32]
  have hsh : 1 <<< (mb - 1) = 2 ^ (mb - 1) := by
    rw [Nat.shiftLeft_eq, one_mul]
  rw [hsh]
  have ht : ((peNat v mb : ℤ) + 1).toNat = peNat v mb + 1 := by omega
  rw [ht]

theorem closest_branch2_nocarry (v : ℚ) (mb eb : ℕ) (hmb : 1 ≤ mb) (hmb32 : mb ≤ 32)
    (hbig : v < 2 ^ 1024)
    (hv : ¬ v < ((2 ^ mb - 1 : ℕ) : ℚ) + 1/2)
    (hcar : ¬ v / (2 : ℚ) ^ peNat v mb > ((2 ^ mb - 1 : ℕ) : ℚ) + 1/2 - 1/1000000000) :
    closest_m_2_n v mb eb =
      (true, peNat v mb, ⌊v / (2 : ℚ) ^ peNat v mb + 1/2⌋.toNat) ∧
    2 ^ (mb - 1) ≤ ⌊v / (2 : ℚ) ^ peNat v mb + 1/2⌋.toNat ∧
    ⌊v / (2 : ℚ) ^ peNat v mb + 1/2⌋.toNat ≤ 2 ^ mb - 1 := by
  obtain ⟨h1v, hpe, hfx, hl, hh⟩ := branch2_facts v mb hmb (not_lt.mp hv)
  have hpebd := peNat_le_1023 v mb hmb h1v hbig
  have hfr0 : (0 : ℚ) ≤ v / 2 ^ peNat v mb :=
    div_nonneg (by linarith) (le_of_lt (pow_pos two_pos _))
  have hflo : ((2 ^ (mb - 1) : ℕ) : ℤ) ≤ ⌊v / (2 : ℚ) ^ peNat v mb + 1/2⌋ := by
    apply Int.le_floor.mpr
    have hc : (((2 ^ (mb - 1) : ℕ) : ℤ) : ℚ) = (2 : ℚ) ^ (mb - 1) := by push_cast; ring
    rw [hc]
    linarith [hl]
  have hfhi : ⌊v / (2 : ℚ) ^ peNat v mb + 1/2⌋ ≤ ((2 ^ mb - 1 : ℕ) : ℤ) := by
    have hle : v / (2 : ℚ) ^ peNat v mb ≤ ((2 ^ mb - 1 : ℕ) : ℚ) + 1/2 - 1/1000000000 :=
      not_lt.mp hcar
    have hlt : v / (2 : ℚ) ^ peNat v mb + 1/2 <
        ((((2 ^ mb - 1 : ℕ) : ℤ) + 1 : ℤ) : ℚ) := by
      push_cast
      linarith
    have := Int.floor_lt.mpr hlt
    omega
  have hm1 : (1 : ℕ) ≤ 2 ^ (mb - 1) := Nat.one_le_two_pow
  have hmono : (2 : ℕ) ^ (mb - 1) ≤ 2 ^ mb := Nat.pow_le_pow_right (by norm_num) (by omega)
  have hmlo : 2 ^ (mb - 1) ≤ ⌊v / (2 : ℚ) ^ peNat v mb + 1/2⌋.toNat := by omega
  have hmhi : ⌊v / (2 : ℚ) ^ peNat v mb + 1/2⌋.toNat ≤ 2 ^ mb - 1 := by omega
  have hP32 : (2 : ℕ) ^ mb ≤ 4294967296 := by
    calc (2 : ℕ) ^ mb ≤ 2 ^ 32 := Nat.pow_le_pow_right (by norm_num) hmb32
      _ = 4294967296 := by norm_num
  refine ⟨?_, hmlo, hmhi⟩
  simp only [closest_m_2_n]
  rw [if_neg hv, hfx, zpow_natCast]
  rw [if_neg hcar]
  rw [pyUint32_eq_floor _ (by linarith) (by omega)]
  rw [if_neg (by omega : ¬ ⌊v / (2 : ℚ) ^ peNat v mb + 1/2⌋.toNat > 2 ^ mb - 1)]
  rw [low32_eq_toNat _ (by omega) (by omega), Int.toNat_natCast]

theorem closestMag_branch2 (v : ℚ) (mb eb : ℕ) (hmb : 1 ≤ mb) (hmb32 : mb ≤ 32)
    (hbig : v < 2 ^ 1024) (hv : ¬ v < ((2 ^ mb - 1 : ℕ) : ℚ) + 1/2) :
    (2 : ℚ) ^ (peNat v mb + mb - 1) ≤ closestMag v mb eb ∧
    closestMag v mb eb ≤ (2 : ℚ) ^ (peNat v mb + mb) ∧
    (2 : ℚ) ^ mb ≤ closestMag v mb eb := by
  by_cases hcar : v / (2 : ℚ) ^ peNat v mb > ((2 ^ mb - 1 : ℕ) : ℚ) + 1/2 - 1/1000000000
  · have hc := closest_branch2_carry v mb eb hmb hbig hv hcar
    have hmag : closestMag v mb eb = (2 : ℚ) ^ (peNat v mb + mb) := by
      unfold closestMag
      rw [hc]
      push_cast
      rw [← pow_add]
      congr 1
      omega
    rw [hmag]
    exact ⟨pow_le_pow_right₀ (by norm_num) (by omega), le_refl _,
      pow_le_pow_right₀ (by norm_num) (by omega)⟩
  · obtain ⟨hc, hmlo, hmhi⟩ := closest_branch2_nocarry v mb eb hmb hmb32 hbig hv hcar
    obtain ⟨h1v, hpe, hfx, hl, hh⟩ := branch2_facts v mb hmb (not_lt.mp hv)
    have hpepos : 1 ≤ peNat v mb := by
      by_contra hp
      have hp0 : peNat v mb = 0 := by omega
      apply hcar
      rw [hp0, pow_zero, div_one]
      have hτ : ((2 ^ mb - 1 : ℕ) : ℚ) + 1/2 ≤ v := not_lt.mp hv
      linarith
    have hmag : closestMag v mb eb =
        (⌊v / (2 : ℚ) ^ peNat v mb + 1/2⌋.toNat : ℚ) * 2 ^ peNat v mb := by
      unfold closestMag
      rw [hc]
    have hcl : (2 : ℚ) ^ (mb - 1) ≤ (⌊v / (2 : ℚ) ^ peNat v mb + 1/2⌋.toNat : ℚ) := by
      exact_mod_cast hmlo
    have hch : (⌊v / (2 : ℚ) ^ peNat v mb + 1/2⌋.toNat : ℚ) ≤ ((2 ^ mb - 1 : ℕ) : ℚ) := by
      exact_mod_cast hmhi
    have hch2 : (⌊v / (2 : ℚ) ^ peNat v mb + 1/2⌋.toNat : ℚ) ≤ (2 : ℚ) ^ mb := by
      rw [maxMantissa_cast] at hch
      linarith
    have hppos : (0 : ℚ) < 2 ^ peNat v mb := pow_pos two_pos _
    refine ⟨?_, ?_, ?_⟩
    · calc (2 : ℚ) ^ (peNat v mb + mb - 1) = 2 ^ (mb - 1) * 2 ^ peNat v mb := by
            rw [← pow_add]; congr 1; omega
        _ ≤ _ := by rw [hmag]; exact mul_le_mul_of_nonneg_right hcl (le_of_lt hppos)
    · calc closestMag v mb eb ≤ (2 : ℚ) ^ mb * 2 ^ peNat v mb := by
            rw [hmag]; exact mul_le_mul_of_nonneg_right hch2 (le_of_lt hppos)
        _ = 2 ^ (peNat v mb + mb) := by rw [← pow_add]; congr 1; omega
    · calc (2 : ℚ) ^ mb ≤ 2 ^ (peNat v mb + mb - 1) :=
            pow_le_pow_right₀ (by norm_num) (by omega)
        _ ≤ closestMag v mb eb := by
            calc (2 : ℚ) ^ (peNat v mb + mb - 1) = 2 ^ (mb - 1) * 2 ^ peNat v mb := by
                  rw [← pow_add]; congr 1; omega
              _ ≤ _ := by rw [hmag]; exact mul_le_mul_of_nonneg_right hcl (le_of_lt hppos)

theorem qlog2_toNat_mono (v1 v2 : ℚ) (h1 : 1 ≤ v1) (h12 : v1 ≤ v2) :
    (qlog2 v1).toNat ≤ (qlog2 v2).toNat := by
  obtain ⟨hlo1, _⟩ := qlog2_spec_of_one_le v1 h1
  obtain ⟨_, hhi2⟩ := qlog2_spec_of_one_le v2 (le_trans h1 h12)
  have hlt : (2 : ℚ) ^ (qlog2 v1).toNat < 2 ^ ((qlog2 v2).toNat + 1) := by
    calc (2 : ℚ) ^ (qlog2 v1).toNat ≤ v1 := hlo1
      _ ≤ v2 := h12
      _ < 2 ^ ((qlog2 v2).toNat + 1) := hhi2
  have := (pow_lt_pow_iff_right₀ (a := (2 : ℚ)) one_lt_two).mp hlt
  omega

theorem closestMag_branch2_carry_eq (v : ℚ) (mb eb : ℕ) (hmb : 1 ≤ mb)
    (hbig : v < 2 ^ 1024) (hv : ¬ v < ((2 ^ mb - 1 : ℕ) : ℚ) + 1/2)
    (hcar : v / (2 : ℚ) ^ peNat v mb > ((2 ^ mb - 1 : ℕ) : ℚ) + 1/2 - 1/1000000000) :
    closestMag v mb eb = (2 : ℚ) ^ (peNat v mb + mb) := by
  unfold closestMag
  rw [closest_branch2_carry v mb eb hmb hbig hv hcar]
  push_cast
  rw [← pow_add]
  congr 1
  omega

theorem closestMag_mono (mb eb : ℕ) (v1 v2 : ℚ) (hmb : 1 ≤ mb) (hmb32 : mb ≤ 32)
    (h0 : 0 ≤ v1) (h12 : v1 ≤ v2) (hbig : v2 < 2 ^ 1024) :
    closestMag v1 mb eb ≤ closestMag v2 mb eb := by
  by_cases hv2 : v2 < ((2 ^ mb - 1 : ℕ) : ℚ) + 1/2
  · have hv1 : v1 < ((2 ^ mb - 1 : ℕ) : ℚ) + 1/2 := lt_of_le_of_lt h12 hv2
    rw [closestMag_branch1 v1 mb eb h0 hmb32 hv1,
      closestMag_branch1 v2 mb eb (le_trans h0 h12) hmb32 hv2]
    have hfl : ⌊v1 + 1/2⌋ ≤ ⌊v2 + 1/2⌋ := Int.floor_le_floor (by linarith)
    have htn : ⌊v1 + 1/2⌋.toNat ≤ ⌊v2 + 1/2⌋.toNat := by omega
    exact_mod_cast htn
  · by_cases hv1 : v1 < ((2 ^ mb - 1 : ℕ) : ℚ) + 1/2
    · rw [closestMag_branch1 v1 mb eb h0 hmb32 hv1]
      have h1le := (closest_branch1 v1 mb eb h0 hmb32 hv1).2
      have hb2 := (closestMag_branch2 v2 mb eb hmb hmb32 hbig hv2).2.2
      calc (⌊v1 + 1/2⌋.toNat : ℚ) ≤ ((2 ^ mb - 1 : ℕ) : ℚ) := by exact_mod_cast h1le
        _ ≤ (2 : ℚ) ^ mb := by rw [maxMantissa_cast]; linarith
        _ ≤ closestMag v2 mb eb := hb2
    · have hτ1 : ((2 ^ mb - 1 : ℕ) : ℚ) + 1/2 ≤ v1 := not_lt.mp hv1
      have hbig1 : v1 < 2 ^ 1024 := lt_of_le_of_lt h12 hbig
      obtain ⟨h1v1, hpe1, _, _, _⟩ := branch2_facts v1 mb hmb hτ1
      obtain ⟨h1v2, hpe2, _, _, _⟩ := branch2_facts v2 mb hmb (not_lt.mp hv2)
      have hn := qlog2_toNat_mono v1 v2 h1v1 h12
      rcases Nat.lt_or_ge (qlog2 v1).toNat (qlog2 v2).toNat with hlt | hge
      · -- strictly lower band
        have hpp : peNat v1 mb + mb ≤ peNat v2 mb + mb - 1 := by omega
        have hb1 := (closestMag_branch2 v1 mb eb hmb hmb32 hbig1 hv1).2.1
        have hb2 := (closestMag_branch2 v2 mb eb hmb hmb32 hbig hv2).1
        calc closestMag v1 mb eb ≤ (2 : ℚ) ^ (peNat v1 mb + mb) := hb1
          _ ≤ (2 : ℚ) ^ (peNat v2 mb + mb - 1) := pow_le_pow_right₀ (by norm_num) hpp
          _ ≤ closestMag v2 mb eb := hb2
      · -- same band
        have hneq : (qlog2 v1).toNat = (qlog2 v2).toNat := by omega
        have hpeq : peNat v1 mb = peNat v2 mb := by unfold peNat; rw [hneq]
        have hppos : (0 : ℚ) < 2 ^ peNat v1 mb := pow_pos two_pos _
        have hfr : v1 / (2 : ℚ) ^ peNat v1 mb ≤ v2 / (2 : ℚ) ^ peNat v2 mb := by
          rw [← hpeq]
          exact (div_le_div_iff_of_pos_right hppos).mpr h12
        by_cases hcar2 : v2 / (2 : ℚ) ^ peNat v2 mb >
            ((2 ^ mb - 1 : ℕ) : ℚ) + 1/2 - 1/1000000000
        · have hmag2 := closestMag_branch2_carry_eq v2 mb eb hmb hbig hv2 hcar2
          have hb1 := (closestMag_branch2 v1 mb eb hmb hmb32 hbig1 hv1).2.1
          calc closestMag v1 mb eb ≤ (2 : ℚ) ^ (peNat v1 mb + mb) := hb1
            _ = (2 : ℚ) ^ (peNat v2 mb + mb) := by rw [hpeq]
            _ = closestMag v2 mb eb := hmag2.symm
        · have hcar1 : ¬ v1 / (2 : ℚ) ^ peNat v1 mb >
              ((2 ^ mb - 1 : ℕ) : ℚ) + 1/2 - 1/1000000000 := by
            intro hgt
            exact hcar2 (lt_of_lt_of_le hgt hfr)
          obtain ⟨hc1, _, _⟩ := closest_branch2_nocarry v1 mb eb hmb hmb32 hbig1 hv1 hcar1
          obtain ⟨hc2, _, _⟩ := closest_branch2_nocarry v2 mb eb hmb hmb32 hbig hv2 hcar2
          have hfl : ⌊v1 / (2 : ℚ) ^ peNat v1 mb + 1/2⌋ ≤
              ⌊v2 / (2 : ℚ) ^ peNat v2 mb + 1/2⌋ :=
            Int.floor_le_floor (by linarith)
          have htn : ⌊v1 / (2 : ℚ) ^ peNat v1 mb + 1/2⌋.toNat ≤
              ⌊v2 / (2 : ℚ) ^ peNat v2 mb + 1/2⌋.toNat := by omega
          have hcast : (⌊v1 / (2 : ℚ) ^ peNat v1 mb + 1/2⌋.toNat : ℚ) ≤
              (⌊v2 / (2 : ℚ) ^ peNat v2 mb + 1/2⌋.toNat : ℚ) := by exact_mod_cast htn
          unfold closestMag
          rw [hc1, hc2]
          simp only []
          rw [← hpeq] at hcast ⊢
          exact mul_le_mul_of_nonneg_right hcast (le_of_lt hppos)

/-- C9: rounding monotonicity and the carry rule of `closest_m_2_n`.
Monotonicity: for nonnegative inputs, a larger input never gets a smaller
encoded magnitude `mantissa * 2^exponent` (stated for any increase, which
subsumes increases below one quantization step).  Carry rule: whenever the
second branch's rounding would push the mantissa past the maximum
(`frac ≥ maxMantissa + 1/2`, i.e. `round(frac) > maxMantissa`), the encoder
increments the exponent and resets the mantissa to the half-range midpoint
`2^(mantissaBits-1)` instead of overflowing the field.  Hypotheses
`1 ≤ mantissaBits ≤ 32` and inputs below `2^1024` reflect the call sites
(13- and 10-bit mantissas packed into `np.uint32`) and the IEEE-double input
domain of the Python floats. -/
theorem closest_m_2_n_monotone_and_carry (mb eb : ℕ) (v1 v2 w : ℚ)
    (hmb : 1 ≤ mb) (hmb32 : mb ≤ 32)
    (h0 : 0 ≤ v1) (h12 : v1 ≤ v2) (hbig : v2 < 2 ^ 1024)
    (hw : ¬ w < ((2 ^ mb - 1 : ℕ) : ℚ) + 1/2) (hwbig : w < 2 ^ 1024)
    (hover : ((2 ^ mb - 1 : ℕ) : ℚ) + 1/2 ≤ w / (2 : ℚ) ^ peNat w mb) :
    closestMag v1 mb eb ≤ closestMag v2 mb eb ∧
    closest_m_2_n w mb eb = (true, peNat w mb + 1, 2 ^ (mb - 1)) := by
  refine ⟨closestMag_mono mb eb v1 v2 hmb hmb32 h0 h12 hbig, ?_⟩
  apply closest_branch2_carry w mb eb hmb hwbig hw
  have heps : ((2 ^ mb - 1 : ℕ) : ℚ) + 1/2 - 1/1000000000 <
      ((2 ^ mb - 1 : ℕ) : ℚ) + 1/2 := by norm_num
  linarith

/-- Witness for C9: magnitudes at 3 and 7/2 (mantissa width 13), and the
carry rule at the documented boundary value 8191.5, which encodes as
exponent 1, mantissa 4096 (= 2^12). -/
theorem closest_m_2_n_monotone_and_carry_witness :
    closestMag 3 13 4 ≤ closestMag (7/2) 13 4 ∧
    closest_m_2_n (16383/2) 13 4 = (true, 1, 4096) := by
  have h1w : (1 : ℚ) ≤ 16383/2 := by norm_num
  have hf : ⌊(16383 : ℚ)/2⌋ = 8191 := by norm_num
  have hq : qlog2 ((16383 : ℚ)/2) = 12 := by
    unfold qlog2
    rw [if_pos h1w, hf]
    decide
  have hpe0 : peNat ((16383 : ℚ)/2) 13 = 0 := by
    unfold peNat
    rw [hq]
    decide
  have hw : ¬ (16383 : ℚ)/2 < ((2 ^ 13 - 1 : ℕ) : ℚ) + 1/2 := by push_cast; norm_num
  have hover : ((2 ^ 13 - 1 : ℕ) : ℚ) + 1/2 ≤ (16383 : ℚ)/2 / (2 : ℚ) ^ peNat ((16383 : ℚ)/2) 13 := by
    rw [hpe0]
    push_cast
    norm_num
  have h := closest_m_2_n_monotone_and_carry 13 4 3 (7/2) (16383/2)
    (by norm_num) (by norm_num) (by norm_num) (by norm_num) (by norm_num)
    hw (by norm_num) hover
  refine ⟨h.1, ?_⟩
  have h2 := h.2
  rw [hpe0] at h2
  simpa using h2
